import Mathlib

/-!
Verification of the migration-planner analyzer (src/analyzer.py).

Shallow embedding conventions:
* Python strings are modeled as `List Char` (`PyStr`), i.e. sequences of
  code points, with structural Lean functions mirroring the Python string
  operations actually used by the source (`lower`, `split`, slicing,
  `startswith`/`endswith`, `strip`, `title`, single-char `replace`).
* The filesystem under a job's working directory is a nested inductive
  (`FS`): named files with character contents and named directories.
  A file's `st_size` is modeled as the length of its contents.
* The external OpenAI completion calls are oracles `Except PyStr PyStr`
  (error message or response text); JSON parsing is an abstract
  `PyStr → Option J` for an arbitrary payload type `J`.
* `re.findall` for the three fixed comment patterns is embedded as
  character-level scanners that emit the same captures as the Python
  regexes, except that captures consisting solely of whitespace are not
  emitted: the source immediately drops them (`c.strip()` filter), so the
  observable comment lists agree.
* Stages of `analyze_project` that perform filesystem I/O (`crawl_project`,
  `list_files_and_folders`, `extract_readme_and_comments`,
  `generate_final_report`) may raise; this is injected through an
  `ioFail` field.  The AI stages catch all their exceptions internally.
-/

/-- Python `str` as a sequence of code points. -/
abbrev PyStr := List Char

/-- Characters the Python `\s` regex class and `str.strip()` treat as
whitespace (ASCII subset; the source only meets ASCII here). -/
def isPySpace (c : Char) : Bool :=
  c = ' ' || c = '\t' || c = '\n' || c = '\r' || c = '\x0b' || c = '\x0c'

/-- Python `str.lower()` (ASCII; the source compares ASCII names only). -/
def pyLower (s : PyStr) : PyStr := s.map Char.toLower

/-- Python `str.strip()`: drop leading and trailing whitespace. -/
def pyStrip (s : PyStr) : PyStr :=
  ((s.dropWhile isPySpace).reverse.dropWhile isPySpace).reverse

/-- Python `name.startswith('.')`. -/
def startsWithDot (s : PyStr) : Bool :=
  match s with
  | '.' :: _ => true
  | _ => false

/-- Python `s.endswith(suffix)`. -/
def pyEndsWith (suffix s : PyStr) : Bool :=
  List.isPrefixOf suffix.reverse s.reverse

/-- Python `s.split(sep)` for a single-character separator. -/
def splitOnChar (sep : Char) : PyStr → List PyStr
  | [] => [[]]
  | c :: cs =>
    if c = sep then [] :: splitOnChar sep cs
    else
      match splitOnChar sep cs with
      | r :: rs => (c :: r) :: rs
      | [] => [[c]]

/-- Python `s.replace('_', ' ')` (single-character arguments). -/
def replaceChar (old new : Char) (s : PyStr) : PyStr :=
  s.map fun c => if c = old then new else c

/-- Python `str.title()` for ASCII text: uppercase each letter that follows
a non-letter, lowercase every other letter. -/
def titleCaseAux : PyStr → Bool → PyStr
  | [], _ => []
  | c :: cs, prevAlpha =>
    (if c.isAlpha then (if prevAlpha then c.toLower else c.toUpper) else c)
      :: titleCaseAux cs c.isAlpha

/-- Python `str.title()`. -/
def titleCase (s : PyStr) : PyStr := titleCaseAux s false

/-- Decimal digits of a natural number (fuel-based so it evaluates in the
kernel); models Python rendering of `int(time.time())` in an f-string. -/
def natDigitsAux : Nat → Nat → PyStr
  | 0, _ => []
  | fuel + 1, n =>
    if n < 10 then [Char.ofNat (48 + n)]
    else natDigitsAux fuel (n / 10) ++ [Char.ofNat (48 + n % 10)]

/-- Decimal rendering of a natural number. -/
def natToChars (n : Nat) : PyStr := natDigitsAux (n + 1) n

/-- `pathlib.Path(name).suffix`: the final extension, empty when the last
dot is absent, leading, or trailing. -/
def pathSuffix (name : PyStr) : PyStr :=
  let revAfter := name.reverse.takeWhile (· ≠ '.')
  if revAfter.length = name.length then []
  else if revAfter.length = 0 then []
  else if revAfter.length = name.length - 1 then []
  else '.' :: revAfter.reverse

/-! ## Migration-step generation (`generate_migration_steps`,
`_generate_category_steps`) -/

/-- The 8 fixed migration-step categories, in source order. -/
def categories : List PyStr :=
  [ "environment_setup".data
  , "code_analysis_and_inventory".data
  , "dependency_migration".data
  , "configuration_migration".data
  , "database_migration".data
  , "testing_strategy".data
  , "deployment_preparation".data
  , "post_migration_tasks".data ]

/-- One stored migration-step entry:
`{'category': ..., 'content': ..., 'generated_at': ...}`. -/
structure StepResult where
  category : PyStr
  content : PyStr
  generated_at : PyStr
deriving DecidableEq, Repr

/-- `_generate_category_steps`: call the completion service for one
category; on failure substitute the error-description string. -/
def generateCategorySteps (aiCategory : PyStr → Except PyStr PyStr)
    (now : PyStr) (category : PyStr) : StepResult :=
  match aiCategory category with
  | .ok content =>
    { category := titleCase (replaceChar '_' ' ' category)
      content := content, generated_at := now }
  | .error e =>
    { category := titleCase (replaceChar '_' ' ' category)
      content := "Error generating steps: ".data ++ e, generated_at := now }

/-- The loop body of `generate_migration_steps`: for each category,
increment `progress` by 2 and store the category's result.  Returns the
sequence of progress values assigned, the final progress value, and the
accumulated `migration_steps` association list. -/
def migrationLoop (aiCategory : PyStr → Except PyStr PyStr) (now : PyStr) :
    List PyStr → Nat → List Nat × Nat × List (PyStr × StepResult)
  | [], p => ([], p, [])
  | c :: cs, p =>
    let p2 := p + 2
    let r := generateCategorySteps aiCategory now c
    let (ts, pEnd, ms) := migrationLoop aiCategory now cs p2
    (p2 :: ts, pEnd, (c, r) :: ms)

/-- `generate_migration_steps` seen as a pure map from the completion
oracle to the stored `migration_steps` association list. -/
def generateMigrationSteps (aiCategory : PyStr → Except PyStr PyStr)
    (now : PyStr) : List (PyStr × StepResult) :=
  (migrationLoop aiCategory now categories 80).2.2

/-! ## AI structural analysis (`analyze_codebase_with_ai`) -/

/-- The stored `code_analysis` value: strictly parsed structured data, the
raw response under the fallback key, or an error description. -/
inductive CodeAnalysis (J : Type) where
  | parsed (j : J)
  | rawAnalysis (s : PyStr)
  | errorDesc (s : PyStr)
deriving DecidableEq

/-- `analyze_codebase_with_ai`, as a total function of the external call's
outcome and the JSON parser: a successful call is parsed strictly, parse
failure stores the raw text, call failure stores the error string.  Being
a total Lean function, it never raises to its caller. -/
def analyzeCodebaseWithAI {J : Type} (call : Except PyStr PyStr)
    (parseJson : PyStr → Option J) : CodeAnalysis J :=
  match call with
  | .ok ai =>
    match parseJson ai with
    | some j => .parsed j
    | none => .rawAnalysis ai
  | .error e => .errorDesc e

/-! ## Filesystem model and the structure pass (`_build_directory_tree`) -/

/-- A directory entry under the job's working directory: a named file with
its character contents, or a named directory with children. -/
inductive FS where
  | file (name : PyStr) (content : PyStr)
  | dir (name : PyStr) (children : List FS)

/-- A node of the nested tree built by `_build_directory_tree`:
`{'type': 'file', 'size': ..., 'extension': ...}` or
`{'type': 'directory', 'children': ...}` (children as an association list
in iteration order). -/
inductive TreeNode where
  | file (size : Nat) (extension : PyStr)
  | dir (children : List (PyStr × TreeNode))

/-- `_build_directory_tree`, reparameterized by the remaining depth budget
`fuel = max_depth + 1 - current_depth`, so `fuel = 0` is exactly the
source's `current_depth > max_depth` early return of `{}`.  Hidden entries
(name starting with a dot) are skipped; files record size and lowercased
extension; directories recurse with one less budget. -/
def buildTreeFromDepth : Nat → List FS → List (PyStr × TreeNode)
  | 0, _ => []
  | fuel + 1, entries =>
    entries.filterMap fun e =>
      match e with
      | .file n content =>
        if startsWithDot n then none
        else some (n, TreeNode.file content.length (pyLower (pathSuffix n)))
      | .dir n cs =>
        if startsWithDot n then none
        else some (n, TreeNode.dir (buildTreeFromDepth fuel cs))

/-- `_build_directory_tree(path, max_depth, current_depth)`. -/
def buildDirectoryTree (entries : List FS) (maxDepth currentDepth : Nat) :
    List (PyStr × TreeNode) :=
  buildTreeFromDepth (maxDepth + 1 - currentDepth) entries

/-- Look a path (list of entry names) up in a built tree. -/
def lookupPath : List PyStr → List (PyStr × TreeNode) → Option TreeNode
  | [], _ => none
  | [n], t => List.lookup n t
  | n :: rest, t =>
    match List.lookup n t with
    | some (TreeNode.dir cs) => lookupPath rest cs
    | _ => none

/-! ## `os.walk` and the two traversal passes -/

/-- Files listed at one directory level, with the directory's path
components (`os.walk` yields each level's file list). -/
def levelFiles (cwd : List PyStr) (entries : List FS) :
    List (List PyStr × PyStr × PyStr) :=
  entries.filterMap fun e =>
    match e with
    | .file n c => some (cwd, n, c)
    | .dir _ _ => none

mutual

/-- Descent of `os.walk` (top-down) into one entry: a non-pruned
directory yields its files and then its own descent.  `prune` models the
in-place filtering of `dirs` (`dirs[:] = ...`); the readme pass passes a
never-true prune. -/
def walkInto (prune : PyStr → Bool) (cwd : List PyStr) :
    FS → List (List PyStr × PyStr × PyStr)
  | FS.file _ _ => []
  | FS.dir n cs =>
    if prune n then []
    else levelFiles (cwd ++ [n]) cs ++ walkSub prune (cwd ++ [n]) cs

/-- Descent of `os.walk` into each entry of a listing, in order. -/
def walkSub (prune : PyStr → Bool) (cwd : List PyStr) :
    List FS → List (List PyStr × PyStr × PyStr)
  | [] => []
  | e :: es => walkInto prune cwd e ++ walkSub prune cwd es

end

/-- `os.walk(project_path)` restricted to the `(rel_dir, name, content)`
triples of the files it yields, in yield order. -/
def walkFiles (prune : PyStr → Bool) (fs : List FS) :
    List (List PyStr × PyStr × PyStr) :=
  levelFiles [] fs ++ walkSub prune [] fs

/-- The directory prune used by `list_files_and_folders`: skip hidden
directories and the fixed ignore-list. -/
def inventoryPrune (d : PyStr) : Bool :=
  startsWithDot d ||
    [ "bin".data, "obj".data, "packages".data, "node_modules".data
    ].contains (pyLower d)

/-- The extensions classified as source code (first branch of the
category chain). -/
def sourceExtensions : List PyStr :=
  [".cs".data, ".vb".data, ".aspx".data, ".ascx".data, ".ashx".data]

/-- One catalogued file of the inventory pass: name, path components
relative to the project, and (for re-reading) its contents. -/
structure FileRecord where
  name : PyStr
  path : List PyStr
  content : PyStr
deriving DecidableEq

/-- The inventory pass (`list_files_and_folders`) restricted to the file
records it appends: every file yielded by the pruned walk whose name is
not hidden, in walk order. -/
def inventoryFiles (fs : List FS) : List FileRecord :=
  (walkFiles inventoryPrune fs).filterMap fun r =>
    if startsWithDot r.2.1 then none
    else some { name := r.2.1, path := r.1 ++ [r.2.1], content := r.2.2 }

/-- `files_by_type['source_code']`: the inventory files whose lowercased
`Path(...).suffix` is one of the source extensions (the first branch of
the classification chain, so membership is exactly this test). -/
def sourceCodeFiles (fs : List FS) : List FileRecord :=
  (inventoryFiles fs).filter fun r =>
    sourceExtensions.contains (pyLower (pathSuffix r.name))

/-! ## Comment extraction (`_extract_comments_from_file`) -/

/-- Scanner state for the `//\s*(.+)` and `///\s*(.+)` patterns:
counting a run of slashes, skipping `\s*`, or capturing `(.+)`. -/
inductive LineScan where
  | slashes (k : Nat)
  | skipWs
  | cap (acc : PyStr)

/-- `re.findall` for a comment marker of `need` consecutive slashes
followed by `\s*(.+)`: emits each capture.  Captures that consist solely
of whitespace (possible only through regex backtracking at end of input)
are not emitted; the source drops them right away via the `c.strip()`
filter, so the observable result is unchanged. -/
def scanSlashCaps (need : Nat) : PyStr → LineScan → List PyStr
  | [], st =>
    match st with
    | LineScan.cap acc => [acc]
    | _ => []
  | c :: cs, LineScan.slashes k =>
    if c = '/' then
      if k + 1 = need then scanSlashCaps need cs LineScan.skipWs
      else scanSlashCaps need cs (LineScan.slashes (k + 1))
    else scanSlashCaps need cs (LineScan.slashes 0)
  | c :: cs, LineScan.skipWs =>
    if isPySpace c then scanSlashCaps need cs LineScan.skipWs
    else scanSlashCaps need cs (LineScan.cap [c])
  | c :: cs, LineScan.cap acc =>
    if c = '\n' then acc :: scanSlashCaps need cs (LineScan.slashes 0)
    else scanSlashCaps need cs (LineScan.cap (acc ++ [c]))

/-- `re.findall(r'//\s*(.+)', content)` (modulo whitespace-only captures,
which the source filters out). -/
def lineCommentCaps (content : PyStr) : List PyStr :=
  scanSlashCaps 2 content (LineScan.slashes 0)

/-- `re.findall(r'///\s*(.+)', content)` (same caveat). -/
def xmlDocCaps (content : PyStr) : List PyStr :=
  scanSlashCaps 3 content (LineScan.slashes 0)

/-- Scanner state for `/\*(.*?)\*/` with `re.DOTALL`. -/
inductive BlockScan where
  | out (sawSlash : Bool)
  | cap (acc : PyStr) (sawStar : Bool)

/-- `re.findall(r'/\*(.*?)\*/', content, re.DOTALL)`: capture the shortest
span between each `/*` and the next `*/`; an unterminated `/*` yields
nothing. -/
def scanBlockCaps : PyStr → BlockScan → List PyStr
  | [], _ => []
  | c :: cs, BlockScan.out sawSlash =>
    if c = '/' then scanBlockCaps cs (BlockScan.out true)
    else if c = '*' && sawSlash then scanBlockCaps cs (BlockScan.cap [] false)
    else scanBlockCaps cs (BlockScan.out false)
  | c :: cs, BlockScan.cap acc sawStar =>
    if c = '*' then
      if sawStar then scanBlockCaps cs (BlockScan.cap (acc ++ ['*']) true)
      else scanBlockCaps cs (BlockScan.cap acc true)
    else if c = '/' && sawStar then acc :: scanBlockCaps cs (BlockScan.out false)
    else
      if sawStar then scanBlockCaps cs (BlockScan.cap (acc ++ ['*', c]) false)
      else scanBlockCaps cs (BlockScan.cap (acc ++ [c]) false)

/-- `re.findall(r'/\*(.*?)\*/', content, re.DOTALL)`. -/
def blockCommentCaps (content : PyStr) : List PyStr :=
  scanBlockCaps content (BlockScan.out false)

/-- `[c.strip() for c in caps if c.strip()]`. -/
def keepStripped (caps : List PyStr) : List PyStr :=
  (caps.map pyStrip).filter (· ≠ [])

/-- `_extract_comments_from_file` on the file's contents: the three
pattern extractions concatenated in source order, capped at 20. -/
def extractCommentsFromData (content : PyStr) : List PyStr :=
  (keepStripped (lineCommentCaps content)
    ++ keepStripped (blockCommentCaps content)
    ++ keepStripped (xmlDocCaps content)).take 20

/-! ## Documentation extraction (`extract_readme_and_comments`) -/

/-- One recorded documentation excerpt:
`{'file': ..., 'path': ..., 'content': content[:2000]}` (the path kept as
relative components). -/
structure ReadmeRecord where
  file : PyStr
  path : List PyStr
  content : PyStr
deriving DecidableEq

/-- One recorded per-file comment summary:
`{'file': ..., 'comments': comments[:10]}`. -/
structure CommentRecord where
  file : PyStr
  comments : List PyStr
deriving DecidableEq

/-- Python `pat in s` for strings: `pat` occurs as a contiguous substring. -/
def pyContains (pat : PyStr) : PyStr → Bool
  | [] => List.isPrefixOf pat []
  | c :: cs => List.isPrefixOf pat (c :: cs) || pyContains pat cs

/-- The readme-name test:
`'readme' in file.lower() or file.lower().endswith('.md')`. -/
def isReadmeName (name : PyStr) : Bool :=
  pyContains "readme".data (pyLower name) ||
    pyEndsWith ".md".data (pyLower name)

/-- The documentation sub-pass of `extract_readme_and_comments`: an
unpruned `os.walk` over the whole working directory (no hidden-entry or
ignore-list skipping), recording every readme-matching file with its
content truncated to 2000 characters. -/
def readmeRecords (fs : List FS) : List ReadmeRecord :=
  (walkFiles (fun _ => false) fs).filterMap fun r =>
    if isReadmeName r.2.1 then
      some { file := r.2.1, path := r.1 ++ [r.2.1], content := r.2.2.take 2000 }
    else none

/-- The stored `readme_and_comments` value. -/
structure ReadmeAndComments where
  readme_files : List ReadmeRecord
  code_comments : List CommentRecord
deriving DecidableEq

/-- `extract_readme_and_comments`: record readme excerpts, then extract
comments from the first 20 source-category files, keeping at most 10
comments per recorded file and skipping files with no comments. -/
def extractReadmeAndComments (fs : List FS) : ReadmeAndComments :=
  { readme_files := readmeRecords fs
    code_comments :=
      ((sourceCodeFiles fs).take 20).filterMap fun r =>
        let comments := extractCommentsFromData r.content
        if comments.isEmpty then none
        else some { file := r.name, comments := comments.take 10 } }

/-! ## Upload endpoint (`upload_project`) and report ids -/

/-- `report_id = f"report_{int(time.time())}_{file.filename.split('.')[0]}"`. -/
def reportId (t : Nat) (filename : PyStr) : PyStr :=
  "report_".data ++ natToChars t ++ "_".data ++ filename.takeWhile (· ≠ '.')

/-- CPython `zipfile` member-name sanitization on extraction
(`ZipFile._extract_member`): split on the path separator and drop empty,
`.` and `..` components, so the target path stays under the extraction
directory. -/
def sanitizeComponents (member : PyStr) : List PyStr :=
  (splitOnChar '/' member).filter fun x =>
    x != [] && x != ".".data && x != "..".data

/-- An upload request: whether a file part is present, its claimed
filename, the archive entry names (used when the name ends in `.zip`),
and the raw content (distinguishes otherwise identical uploads). -/
structure UploadRequest where
  hasFile : Bool
  filename : PyStr
  zipEntries : List PyStr
  content : PyStr
deriving DecidableEq

/-- The HTTP-level outcome of `upload_project`. -/
inductive UploadResponse where
  | err (msg : PyStr) (code : Nat)
  | ok (report_id : PyStr)
deriving DecidableEq

/-- `upload_project`: reject a missing file part or empty filename with a
400 error; otherwise derive the report id from the clock second and the
filename stem; when the sanitized filename (`secure_filename`, modeled
as a parameter) ends in `.zip`, extract every entry (sanitized) under
`uploads/<report_id>`; otherwise place the single file there under its
sanitized name.  Returns the
response and the list of paths written under the extraction directory,
as path components.  (The transient save of the archive blob itself,
removed right after extraction, is not modeled as a persistent write.) -/
def uploadProject (secure : PyStr → PyStr) (t : Nat) (req : UploadRequest) :
    UploadResponse × List (List PyStr) :=
  if !req.hasFile then (.err "No file uploaded".data 400, [])
  else if req.filename = [] then (.err "No file selected".data 400, [])
  else
    let rid := reportId t req.filename
    let filename := secure req.filename
    let extractionPath := ["uploads".data, rid]
    if pyEndsWith ".zip".data (pyLower filename) then
      (.ok rid, req.zipEntries.map fun n => extractionPath ++ sanitizeComponents n)
    else
      (.ok rid, [extractionPath ++ [filename]])

/-! ## The analysis pipeline (`analyze_project`) and progress tracking -/

/-- The pipeline stages that perform filesystem I/O and can therefore
raise into the top-level `except` of `analyze_project`.  (The three AI
stages catch every exception from the external call internally, and the
category sub-loop stores error placeholders instead of raising.) -/
inductive Stage where
  | crawl
  | listFiles
  | extractReadme
  | finalReport
deriving DecidableEq

/-- The external world one run observes: the filesystem stages' injected
failure (if any, with the exception text), the three AI-call oracles, the
JSON parser, and the timestamp string. -/
structure World (J : Type) where
  ioFail : Option (Stage × PyStr)
  aiStructural : Except PyStr PyStr
  parseJson : PyStr → Option J
  aiSummary : Except PyStr PyStr
  aiCategory : PyStr → Except PyStr PyStr
  now : PyStr

/-- The analyzer's accumulated `analysis_data` (the fields the claims
depend on; dict-valued fields start empty, modeled as `none`/`[]`). -/
structure AnalysisData (J : Type) where
  project_structure : List (PyStr × TreeNode) := []
  files_and_folders : Option (List FileRecord) := none
  readme_and_comments : Option ReadmeAndComments := none
  code_analysis : Option (CodeAnalysis J) := none
  executive_summary : PyStr := []
  migration_steps : List (PyStr × StepResult) := []

/-- The per-job mutable record: progress percent, status string, data. -/
structure Analyzer (J : Type) where
  progress : Nat := 0
  status : PyStr := "Starting analysis...".data
  analysis_data : AnalysisData J := {}

/-- `generate_executive_summary`: store the response, or the
error-description string on failure. -/
def generateExecutiveSummary (call : Except PyStr PyStr) : PyStr :=
  match call with
  | .ok s => s
  | .error e => "Error generating summary: ".data ++ e

/-- The record of one `analyze_project` run: every value assigned to
`self.progress` in order, the final analyzer state, and the returned
boolean. -/
structure RunLog (J : Type) where
  trace : List Nat
  final : Analyzer J
  ok : Bool

/-- The message of the injected exception at stage `s`, if any. -/
def ioFailAt {J : Type} (w : World J) (s : Stage) : Option PyStr :=
  match w.ioFail with
  | some (s2, m) => if s2 = s then some m else none
  | none => none

/-- The top-level `except` of `analyze_project`: set
`status = f"Error: {e}"` and return `False`; `progress` keeps its last
value. -/
def failRun {J : Type} (trace : List Nat) (st : Analyzer J) (msg : PyStr) :
    RunLog J :=
  { trace := trace
    final := { st with status := "Error: ".data ++ msg }
    ok := false }

/-- `analyze_project`: the seven sequential steps, each first setting
`status` and `progress`, with the whole body wrapped in one `try/except`
that turns any raised exception into a `False` return with an error
status.  Failures are injected via `w.ioFail` at the four stages that do
filesystem I/O. -/
def analyzeProject {J : Type} (fs : List FS) (w : World J) : RunLog J :=
  let st : Analyzer J := {}
  let st := { st with status := "Step 1: Crawling project structure...".data, progress := 10 }
  match ioFailAt w Stage.crawl with
  | some m => failRun [10] st m
  | none =>
  let st := { st with analysis_data.project_structure := buildDirectoryTree fs 5 0 }
  let st := { st with status := "Step 2: Listing files and folders...".data, progress := 20 }
  match ioFailAt w Stage.listFiles with
  | some m => failRun [10, 20] st m
  | none =>
  let st := { st with analysis_data.files_and_folders := some (inventoryFiles fs) }
  let st := { st with status := "Step 3: Extracting README and comments...".data, progress := 30 }
  match ioFailAt w Stage.extractReadme with
  | some m => failRun [10, 20, 30] st m
  | none =>
  let st := { st with analysis_data.readme_and_comments := some (extractReadmeAndComments fs) }
  let st := { st with status := "Step 4: Analyzing codebase with AI...".data, progress := 40 }
  let ca := some (analyzeCodebaseWithAI w.aiStructural w.parseJson)
  let st := { st with analysis_data.code_analysis := ca }
  let st := { st with status := "Step 5: Generating executive summary...".data, progress := 60 }
  let st := { st with analysis_data.executive_summary := generateExecutiveSummary w.aiSummary }
  let st := { st with status := "Step 6: Creating detailed migration steps...".data, progress := 80 }
  let loop := migrationLoop w.aiCategory w.now categories 80
  let st := { st with progress := loop.2.1, analysis_data.migration_steps := loop.2.2 }
  let st := { st with status := "Step 7: Generating final report...".data, progress := 90 }
  match ioFailAt w Stage.finalReport with
  | some m => failRun ([10, 20, 30, 40, 60, 80] ++ loop.1 ++ [90]) st m
  | none =>
  let st := { st with status := "Analysis completed!".data, progress := 100 }
  { trace := [10, 20, 30, 40, 60, 80] ++ loop.1 ++ [90, 100], final := st, ok := true }

/-- The `/progress/<report_id>` response body for a tracked job. -/
structure ProgressResponse where
  progress : Nat
  status : PyStr
  completed : Bool
deriving DecidableEq

/-- `get_progress` for a job whose analyzer exists:
`completed = analyzer.progress >= 100`. -/
def getProgress {J : Type} (a : Analyzer J) : ProgressResponse :=
  { progress := a.progress, status := a.status, completed := 100 ≤ a.progress }

/-- Boolean check that a list of progress values never decreases. -/
def nondecreasing : List Nat → Bool
  | [] => true
  | [_] => true
  | a :: b :: rest => a ≤ b && nondecreasing (b :: rest)

/-! ## Shared demo inputs and helper lemmas -/

/-- A world where every external call succeeds and no I/O stage raises. -/
def allOkWorld : World Unit :=
  { ioFail := none, aiStructural := .ok "resp".data, parseJson := fun _ => none,
    aiSummary := .ok "sum".data, aiCategory := fun _ => .ok "steps".data,
    now := "2024-01-01".data }

/-- The migration-steps association list is the category list mapped
through the per-category generator. -/
theorem migrationLoop_steps (aiCategory : PyStr → Except PyStr PyStr)
    (now : PyStr) (cs : List PyStr) :
    ∀ p : Nat, (migrationLoop aiCategory now cs p).2.2
      = cs.map fun c => (c, generateCategorySteps aiCategory now c) := by
  induction cs with
  | nil => intro p; rfl
  | cons c cs ih => intro p; simp [migrationLoop, ih]

/-- Looking a key up in a keyed map of itself returns its image. -/
theorem lookup_map_pair_of_mem (f : PyStr → StepResult) (c : PyStr) :
    ∀ l : List PyStr, c ∈ l →
      List.lookup c (l.map fun x => (x, f x)) = some (f c) := by
  intro l
  induction l with
  | nil => intro h; cases h
  | cons x xs ih =>
    intro h
    by_cases hx : c = x
    · subst hx; simp [List.lookup]
    · have hm : c ∈ xs := by
        rcases List.mem_cons.mp h with h1 | h1
        · exact absurd h1 hx
        · exact h1
      have hbeq : (c == x) = false := beq_eq_false_iff_ne.mpr hx
      simp [List.lookup, hbeq, ih hm]

/-- The per-category result depends only on that category's call. -/
theorem generateCategorySteps_congr (a b : PyStr → Except PyStr PyStr)
    (now c : PyStr) (h : a c = b c) :
    generateCategorySteps a now c = generateCategorySteps b now c := by
  unfold generateCategorySteps
  rw [h]

/-- C1: the claim asserts that `progress` is monotonically non-decreasing
over every run of `analyze_project`, follows the checkpoints
10/20/30/40/60/80/90/100 with small increments during the 8-category
sub-loop, and is 100 exactly on the Completed state.  The code violates
the monotonicity part: the sub-loop (step 6) raises `progress` from 80 to
96 (eight increments of 2), and step 7 then assigns the fixed checkpoint
90 — a decrease — before the final 100.  Evaluating the pipeline on a
fully successful run: the assigned progress sequence is exactly
[10, 20, 30, 40, 60, 80, 82, 84, 86, 88, 90, 92, 94, 96, 90, 100], which
is not non-decreasing, even though the run completes with progress 100. -/
theorem progressTrace_decreases_on_success :
    (analyzeProject (J := Unit) [] allOkWorld).trace
      = [10, 20, 30, 40, 60, 80, 82, 84, 86, 88, 90, 92, 94, 96, 90, 100]
    ∧ nondecreasing (analyzeProject (J := Unit) [] allOkWorld).trace = false
    ∧ (analyzeProject (J := Unit) [] allOkWorld).ok = true
    ∧ (analyzeProject (J := Unit) [] allOkWorld).final.progress = 100 := by
  exact ⟨by decide, by decide, by decide, by decide⟩

/-- C10: the `/progress/` completed flag equals `progress >= 100`, and a
run of the pipeline that fails (returns `False`) always leaves progress
strictly below 100 with an `Error: ...` status, so the progress query
never reports `completed` for a failed job — by the flag alone it looks
like an in-progress job. -/
theorem failed_job_never_completed {J : Type} (fs : List FS) (w : World J)
    (h : (analyzeProject fs w).ok = false) :
    (getProgress (analyzeProject fs w).final).completed = false
    ∧ (∃ m, (analyzeProject fs w).final.status = "Error: ".data ++ m)
    ∧ (getProgress (analyzeProject fs w).final).completed
        = decide (100 ≤ (analyzeProject fs w).final.progress) := by
  rcases hw : w.ioFail with _ | ⟨s, m⟩
  · exfalso
    revert h
    simp [analyzeProject, ioFailAt, hw]
  · cases s <;>
      simp [analyzeProject, ioFailAt, hw, failRun, getProgress]

/-- C10 witness: a concrete failed run (the final-report stage raises)
reports `completed = false`. -/
theorem failed_job_never_completed_witness :
    (analyzeProject (J := Unit) []
        { allOkWorld with ioFail := some (Stage.finalReport, "disk full".data) }).ok
      = false
    ∧ (getProgress (analyzeProject (J := Unit) []
        { allOkWorld with ioFail := some (Stage.finalReport, "disk full".data) }).final).completed
      = false := by
  refine ⟨by decide, ?_⟩
  exact (failed_job_never_completed (J := Unit) []
    { allOkWorld with ioFail := some (Stage.finalReport, "disk full".data) }
    (by decide)).1

/-- C2: if the external completion call fails for one of the 8 fixed
categories, that category's stored content is the non-empty
error-description string, every category's stored entry depends only on
its own call (so the other categories are unaffected by the failure), and
the pipeline still completes with all 8 category entries present in
`migration_steps`. -/
theorem migration_category_failure_isolated {J : Type}
    (aiCat aiCat2 : PyStr → Except PyStr PyStr) (now e : PyStr)
    (c c2 : PyStr) (fs : List FS) (w : World J)
    (hc : c ∈ categories)
    (he : aiCat c = .error e)
    (hc2 : c2 ∈ categories)
    (hagree : aiCat2 c2 = aiCat c2)
    (hw1 : w.ioFail = none) (hw2 : w.aiCategory = aiCat) (hw3 : w.now = now) :
    (generateMigrationSteps aiCat now).map Prod.fst = categories
    ∧ (generateMigrationSteps aiCat now).length = 8
    ∧ List.lookup c (generateMigrationSteps aiCat now)
        = some { category := titleCase (replaceChar '_' ' ' c),
                 content := "Error generating steps: ".data ++ e,
                 generated_at := now }
    ∧ "Error generating steps: ".data ++ e ≠ []
    ∧ List.lookup c2 (generateMigrationSteps aiCat2 now)
        = List.lookup c2 (generateMigrationSteps aiCat now)
    ∧ (analyzeProject fs w).ok = true
    ∧ (analyzeProject fs w).final.analysis_data.migration_steps
        = generateMigrationSteps aiCat now := by
  have hsteps : ∀ a : PyStr → Except PyStr PyStr,
      generateMigrationSteps a now
        = categories.map fun x => (x, generateCategorySteps a now x) := by
    intro a
    simp [generateMigrationSteps, migrationLoop_steps]
  refine ⟨?_, ?_, ?_, ?_, ?_, ?_, ?_⟩
  · rw [hsteps]
    simp [List.map_map, Function.comp_def]
  · rw [hsteps]
    simp [categories]
  · rw [hsteps, lookup_map_pair_of_mem _ _ _ hc]
    simp [generateCategorySteps, he]
  · simp
  · rw [hsteps, hsteps, lookup_map_pair_of_mem _ _ _ hc2,
      lookup_map_pair_of_mem _ _ _ hc2,
      generateCategorySteps_congr aiCat2 aiCat now c2 hagree]
  · simp [analyzeProject, ioFailAt, hw1]
  · simp [analyzeProject, ioFailAt, hw1, hw2, hw3, generateMigrationSteps]

/-- The completion oracle that fails on the third category and succeeds
elsewhere. -/
def failOnDependencyMigration (x : PyStr) : Except PyStr PyStr :=
  if x = "dependency_migration".data then .error "boom".data
  else .ok "steps".data

/-- The always-succeeding completion oracle. -/
def allOkCategory (_ : PyStr) : Except PyStr PyStr := .ok "steps".data

/-- The world whose category calls fail on the third category only. -/
def failCat3World : World Unit :=
  { allOkWorld with aiCategory := failOnDependencyMigration }

/-- C2 witness: failing category 3 of 8 (`dependency_migration`) at a
concrete run — the stored content is the error string, a different
category is unaffected, and the job completes with 8 entries. -/
theorem migration_category_failure_isolated_witness :
    (generateMigrationSteps failOnDependencyMigration "2024-01-01".data).map Prod.fst
        = categories
    ∧ (generateMigrationSteps failOnDependencyMigration "2024-01-01".data).length = 8
    ∧ List.lookup "dependency_migration".data
          (generateMigrationSteps failOnDependencyMigration "2024-01-01".data)
        = some { category := titleCase (replaceChar '_' ' ' "dependency_migration".data),
                 content := "Error generating steps: ".data ++ "boom".data,
                 generated_at := "2024-01-01".data }
    ∧ "Error generating steps: ".data ++ "boom".data ≠ []
    ∧ List.lookup "testing_strategy".data
          (generateMigrationSteps allOkCategory "2024-01-01".data)
        = List.lookup "testing_strategy".data
            (generateMigrationSteps failOnDependencyMigration "2024-01-01".data)
    ∧ (analyzeProject (J := Unit) [] failCat3World).ok = true
    ∧ (analyzeProject (J := Unit) [] failCat3World).final.analysis_data.migration_steps
        = generateMigrationSteps failOnDependencyMigration "2024-01-01".data := by
  exact migration_category_failure_isolated failOnDependencyMigration allOkCategory
    "2024-01-01".data "boom".data "dependency_migration".data "testing_strategy".data
    [] failCat3World (by decide) rfl (by decide) rfl rfl rfl rfl

/-- The AI-structural stage as a transformation of `analysis_data`:
store the (total) analysis result in `code_analysis`. -/
def analysisDataAIStage {J : Type} (d : AnalysisData J)
    (call : Except PyStr PyStr) (parseJson : PyStr → Option J) :
    AnalysisData J :=
  { d with code_analysis := some (analyzeCodebaseWithAI call parseJson) }

/-- C7: `analyze_codebase_with_ai` is total in the external response — a
successful call whose text parses is stored as parsed data, a parse
failure stores the raw text under the fallback constructor, a failed call
stores the error description — and in every case the stage leaves
`code_analysis` populated. -/
theorem ai_structural_stage_total {J : Type} (parseJson : PyStr → Option J)
    (s e : PyStr) (d : AnalysisData J) (call : Except PyStr PyStr) :
    analyzeCodebaseWithAI (Except.ok s) parseJson
      = (parseJson s).elim (CodeAnalysis.rawAnalysis s) CodeAnalysis.parsed
    ∧ analyzeCodebaseWithAI (Except.error e) parseJson = CodeAnalysis.errorDesc e
    ∧ (analysisDataAIStage d call parseJson).code_analysis.isSome = true := by
  refine ⟨?_, rfl, rfl⟩
  cases h : parseJson s <;> simp [analyzeCodebaseWithAI, h]

/-! ## Lemmas about the structure pass -/

/-- A successful association-list lookup exhibits a member. -/
theorem mem_of_lookup_some {β : Type} (n : PyStr) (v : β) :
    ∀ l : List (PyStr × β), List.lookup n l = some v → (n, v) ∈ l := by
  intro l
  induction l with
  | nil => intro h; cases h
  | cons x xs ih =>
    intro h
    rcases x with ⟨k, w⟩
    rw [List.lookup_cons] at h
    split at h
    · cases h
      next heq =>
        have hnk : n = k := eq_of_beq heq
        subst hnk
        exact List.mem_cons_self _ _
    · exact List.mem_cons_of_mem _ (ih h)

/-- Every key in a built tree level is a non-hidden name. -/
theorem mem_buildTree_not_hidden (fuel : Nat) (entries : List FS)
    (n : PyStr) (node : TreeNode)
    (h : (n, node) ∈ buildTreeFromDepth fuel entries) :
    startsWithDot n = false := by
  cases fuel with
  | zero => cases h
  | succ fuel =>
    rcases List.mem_filterMap.mp h with ⟨e, _, he⟩
    cases e with
    | file nm c =>
      by_cases hd : startsWithDot nm = true
      · simp [hd] at he
      · simp only [Bool.not_eq_true] at hd
        simp [hd] at he
        rcases he with ⟨hn, _⟩
        rw [← hn]
        exact hd
    | dir nm cs =>
      by_cases hd : startsWithDot nm = true
      · simp [hd] at he
      · simp only [Bool.not_eq_true] at hd
        simp [hd] at he
        rcases he with ⟨hn, _⟩
        rw [← hn]
        exact hd

/-- A directory node in a built tree level carries a tree built with one
less depth budget. -/
theorem mem_buildTree_dir (fuel : Nat) (entries : List FS)
    (n : PyStr) (cs : List (PyStr × TreeNode))
    (h : (n, TreeNode.dir cs) ∈ buildTreeFromDepth fuel entries) :
    ∃ ents, cs = buildTreeFromDepth (fuel - 1) ents := by
  cases fuel with
  | zero => cases h
  | succ fuel =>
    rcases List.mem_filterMap.mp h with ⟨e, _, he⟩
    cases e with
    | file nm c =>
      by_cases hd : startsWithDot nm = true
      · simp [hd] at he
      · simp only [Bool.not_eq_true] at hd
        simp [hd] at he
    | dir nm ents =>
      by_cases hd : startsWithDot nm = true
      · simp [hd] at he
      · simp only [Bool.not_eq_true] at hd
        simp [hd] at he
        exact ⟨ents, by rw [← he.2]; rfl⟩

/-- Unfolding equation for `lookupPath` on a path of length at least 2. -/
theorem lookupPath_cons_cons (a b : PyStr) (rest : List PyStr)
    (t : List (PyStr × TreeNode)) :
    lookupPath (a :: b :: rest) t
      = match List.lookup a t with
        | some (TreeNode.dir cs) => lookupPath (b :: rest) cs
        | _ => none := rfl

/-- A path ending in a hidden name never resolves in a built tree. -/
theorem lookupPath_hidden_none (n : PyStr) (hn : startsWithDot n = true) :
    ∀ (p : List PyStr) (fuel : Nat) (entries : List FS),
      lookupPath (p ++ [n]) (buildTreeFromDepth fuel entries) = none := by
  intro p
  induction p with
  | nil =>
    intro fuel entries
    show List.lookup n (buildTreeFromDepth fuel entries) = none
    cases h : List.lookup n (buildTreeFromDepth fuel entries) with
    | none => rfl
    | some v =>
      have := mem_buildTree_not_hidden fuel entries n v
        (mem_of_lookup_some n v _ h)
      rw [hn] at this
      cases this
  | cons m p ih =>
    intro fuel entries
    rw [List.cons_append]
    rcases hq : p ++ [n] with _ | ⟨q, qs⟩
    · exact absurd hq (by simp)
    · rw [lookupPath_cons_cons]
      cases hm : List.lookup m (buildTreeFromDepth fuel entries) with
      | none => rfl
      | some node =>
        cases node with
        | file sz ext => rfl
        | dir cs =>
          rcases mem_buildTree_dir fuel entries m cs
            (mem_of_lookup_some m _ _ hm) with ⟨ents, hcs⟩
          rw [hcs, ← hq]
          exact ih (fuel - 1) ents

/-- A path that resolves to a directory node lands on a tree built with
the depth budget reduced by the path length. -/
theorem lookupPath_dir_shape :
    ∀ (p : List PyStr) (fuel : Nat) (entries : List FS)
      (cs : List (PyStr × TreeNode)),
      lookupPath p (buildTreeFromDepth fuel entries) = some (TreeNode.dir cs) →
      ∃ ents, cs = buildTreeFromDepth (fuel - p.length) ents := by
  intro p
  induction p with
  | nil =>
    intro fuel entries cs h
    cases h
  | cons m p ih =>
    intro fuel entries cs h
    cases hp : p with
    | nil =>
      rw [hp] at h
      have hm : List.lookup m (buildTreeFromDepth fuel entries)
          = some (TreeNode.dir cs) := h
      rcases mem_buildTree_dir fuel entries m cs
        (mem_of_lookup_some m _ _ hm) with ⟨ents, hcs⟩
      refine ⟨ents, ?_⟩
      rw [hcs]
      rfl
    | cons q qs =>
      rw [hp] at h
      rw [lookupPath_cons_cons] at h
      cases hm : List.lookup m (buildTreeFromDepth fuel entries) with
      | none => rw [hm] at h; cases h
      | some node =>
        cases node with
        | file sz ext => rw [hm] at h; cases h
        | dir cs2 =>
          rw [hm] at h
          rcases mem_buildTree_dir fuel entries m cs2
            (mem_of_lookup_some m _ _ hm) with ⟨ents2, hcs2⟩
          have h2 : lookupPath (q :: qs) (buildTreeFromDepth (fuel - 1) ents2)
              = some (TreeNode.dir cs) := by
            rw [← hcs2]
            exact h
          rw [← hp] at h2
          rcases ih (fuel - 1) ents2 cs h2 with ⟨ents, hcs⟩
          rw [hp] at hcs
          refine ⟨ents, ?_⟩
          rw [hcs]
          congr 1
          simp only [List.length_cons]
          omega

/-- C4: the structure pass with `max_depth = 5` never recurses past the
depth limit — any directory six levels deep (one past the limit) shows up
with an empty child map — and no entry whose name starts with a dot ever
appears in the tree, at any level. -/
theorem tree_depth_bounded_and_hidden_skipped (fs : List FS)
    (p : List PyStr) (n : PyStr) (cs : List (PyStr × TreeNode)) :
    (startsWithDot n = true →
      lookupPath (p ++ [n]) (buildDirectoryTree fs 5 0) = none)
    ∧ (p.length = 6 →
      lookupPath p (buildDirectoryTree fs 5 0) = some (TreeNode.dir cs) →
      cs = []) := by
  constructor
  · intro hn
    exact lookupPath_hidden_none n hn p 6 fs
  · intro hlen h
    rcases lookupPath_dir_shape p 6 fs cs h with ⟨ents, hcs⟩
    rw [hlen] at hcs
    exact hcs

/-- A demo tree: six nested directories with a file at the bottom, plus a
hidden directory. -/
def deepDemoFs : List FS :=
  [ FS.dir ".git".data [FS.file "config".data "x".data]
  , FS.dir "d1".data [FS.dir "d2".data [FS.dir "d3".data [FS.dir "d4".data
      [FS.dir "d5".data [FS.dir "d6".data
        [FS.file "deep.txt".data "z".data]]]]]] ]

/-- C4 witness: on the demo tree, the hidden `.git` entry is absent and
the sixth-level directory resolves to an empty child map. -/
theorem tree_depth_bounded_and_hidden_skipped_witness :
    lookupPath (([] : List PyStr) ++ [".git".data])
        (buildDirectoryTree deepDemoFs 5 0) = none
    ∧ lookupPath ["d1".data, "d2".data, "d3".data, "d4".data, "d5".data, "d6".data]
        (buildDirectoryTree deepDemoFs 5 0) = some (TreeNode.dir [])
    ∧ ([] : List (PyStr × TreeNode)) = [] := by
  refine ⟨?_, ?_, ?_⟩
  · exact (tree_depth_bounded_and_hidden_skipped deepDemoFs [] ".git".data []).1
      (by decide)
  · rfl
  · exact (tree_depth_bounded_and_hidden_skipped deepDemoFs
      ["d1".data, "d2".data, "d3".data, "d4".data, "d5".data, "d6".data]
      "x".data []).2 (by decide) rfl

/-! ## Lemmas about the traversal passes -/

mutual

/-- A file yielded by descending into one entry lies under the entry's
directory, and every directory on its path below the current one passed
the prune test. -/
theorem walkInto_shape (prune : PyStr → Bool) (cwd : List PyStr) (e : FS)
    (p : List PyStr) (n c : PyStr) (h : (p, n, c) ∈ walkInto prune cwd e) :
    ∃ suf, p = cwd ++ suf ∧ ∀ d ∈ suf, prune d = false := by
  cases e with
  | file nm ct => cases h
  | dir nm cs =>
    rw [walkInto] at h
    by_cases hp : prune nm = true
    · rw [if_pos hp] at h
      cases h
    · rw [if_neg hp] at h
      rcases List.mem_append.mp h with h1 | h1
      · rcases List.mem_filterMap.mp h1 with ⟨e2, _, he2⟩
        cases e2 with
        | file nm2 c2 =>
          simp only [Option.some.injEq, Prod.mk.injEq] at he2
          refine ⟨[nm], he2.1.symm, ?_⟩
          intro d hd
          rcases List.mem_singleton.mp hd with rfl
          simpa using hp
        | dir nm2 cs2 => cases he2
      · rcases walkSub_shape prune (cwd ++ [nm]) cs p n c h1 with ⟨suf, hps, hsuf⟩
        refine ⟨nm :: suf, ?_, ?_⟩
        · rw [hps]
          simp
        · intro d hd
          rcases List.mem_cons.mp hd with rfl | hd2
          · simpa using hp
          · exact hsuf d hd2

/-- Same property for the descent into a whole listing. -/
theorem walkSub_shape (prune : PyStr → Bool) (cwd : List PyStr) (fs : List FS)
    (p : List PyStr) (n c : PyStr) (h : (p, n, c) ∈ walkSub prune cwd fs) :
    ∃ suf, p = cwd ++ suf ∧ ∀ d ∈ suf, prune d = false := by
  cases fs with
  | nil => cases h
  | cons e es =>
    rw [walkSub] at h
    rcases List.mem_append.mp h with h1 | h1
    · exact walkInto_shape prune cwd e p n c h1
    · exact walkSub_shape prune cwd es p n c h1

end

/-- Every directory on the relative path of a file yielded by a pruned
walk passed the prune test. -/
theorem walkFiles_no_pruned_dir (prune : PyStr → Bool) (fs : List FS)
    (p : List PyStr) (n c : PyStr) (h : (p, n, c) ∈ walkFiles prune fs) :
    ∀ d ∈ p, prune d = false := by
  rcases List.mem_append.mp h with h1 | h1
  · rcases List.mem_filterMap.mp h1 with ⟨e2, _, he2⟩
    cases e2 with
    | file nm2 c2 =>
      simp only [Option.some.injEq, Prod.mk.injEq] at he2
      intro d hd
      rw [← he2.1] at hd
      cases hd
    | dir nm2 cs2 => cases he2
  · rcases walkSub_shape prune [] fs p n c h1 with ⟨suf, hps, hsuf⟩
    intro d hd
    rw [hps] at hd
    exact hsuf d (by simpa using hd)

/-- C8: the documentation sub-pass walks the whole working directory with
no pruning, so a readme/markdown file under a hidden directory or under
one of the ignored build directories is still recorded with its excerpt —
while the inventory pass, whose walk prunes those directories, does not
yield that file at all. -/
theorem readme_pass_ignores_prune (fs : List FS) (p : List PyStr)
    (n c : PyStr) (d : PyStr)
    (hmem : (p, n, c) ∈ walkFiles (fun _ => false) fs)
    (hname : isReadmeName n = true)
    (hd : d ∈ p) (hpd : inventoryPrune d = true) :
    ({ file := n, path := p ++ [n], content := c.take 2000 } : ReadmeRecord)
        ∈ readmeRecords fs
    ∧ (p, n, c) ∉ walkFiles inventoryPrune fs := by
  constructor
  · exact List.mem_filterMap.mpr ⟨(p, n, c), hmem, by simp [hname]⟩
  · intro hinv
    have := walkFiles_no_pruned_dir inventoryPrune fs p n c hinv d hd
    rw [hpd] at this
    cases this

/-- A demo tree with a readme under an ignored build directory. -/
def binReadmeFs : List FS :=
  [ FS.dir "bin".data [FS.file "README.md".data "Hi".data]
  , FS.dir "src".data [FS.file "Foo.cs".data "// hello".data] ]

/-- C8 witness: `bin/README.md` is recorded by the documentation pass and
absent from the inventory walk. -/
theorem readme_pass_ignores_prune_witness :
    ({ file := "README.md".data, path := ["bin".data, "README.md".data],
       content := "Hi".data.take 2000 } : ReadmeRecord)
        ∈ readmeRecords binReadmeFs
    ∧ (["bin".data], "README.md".data, "Hi".data)
        ∉ walkFiles inventoryPrune binReadmeFs := by
  exact readme_pass_ignores_prune binReadmeFs ["bin".data] "README.md".data
    "Hi".data "bin".data (by decide) (by decide) (by decide) (by decide)

/-- C5 (amended): every recorded documentation excerpt is truncated to at
most 2000 characters, every recorded source file carries at most 10
comment entries (the extraction itself caps at 20 before this), and the
comment summary records at most 20 files — the per-job file cap in the
code is 20 (`[:20]`), not the 10 the spec's example states. -/
theorem extractor_bounds (fs : List FS) (r : ReadmeRecord)
    (rec : CommentRecord)
    (hr : r ∈ (extractReadmeAndComments fs).readme_files)
    (hrec : rec ∈ (extractReadmeAndComments fs).code_comments) :
    r.content.length ≤ 2000
    ∧ rec.comments.length ≤ 10
    ∧ (extractReadmeAndComments fs).code_comments.length ≤ 20 := by
  refine ⟨?_, ?_, ?_⟩
  · rcases List.mem_filterMap.mp hr with ⟨x, _, hx⟩
    by_cases hn : isReadmeName x.2.1 = true
    · rw [if_pos hn] at hx
      rcases Option.some.inj hx with rfl
      exact List.length_take_le 2000 x.2.2
    · rw [if_neg hn] at hx
      cases hx
  · rcases List.mem_filterMap.mp hrec with ⟨x, _, hx⟩
    by_cases he : (extractCommentsFromData x.content).isEmpty = true
    · rw [if_pos he] at hx
      cases hx
    · rw [if_neg he] at hx
      rcases Option.some.inj hx with rfl
      exact List.length_take_le 10 (extractCommentsFromData x.content)
  · exact Nat.le_trans (List.length_filterMap_le _ _)
      (List.length_take_le 20 (sourceCodeFiles fs))

/-- Eleven source files, each with one comment. -/
def elevenCommentedSources : List FS :=
  [ FS.file "a0.cs".data "// x".data, FS.file "a1.cs".data "// x".data
  , FS.file "a2.cs".data "// x".data, FS.file "a3.cs".data "// x".data
  , FS.file "a4.cs".data "// x".data, FS.file "a5.cs".data "// x".data
  , FS.file "a6.cs".data "// x".data, FS.file "a7.cs".data "// x".data
  , FS.file "a8.cs".data "// x".data, FS.file "a9.cs".data "// x".data
  , FS.file "b0.cs".data "// x".data ]

/-- C5 counterexample: with eleven commented source files the comment
summary records eleven files, so the per-job bound of 10 files stated in
the claim (after the spec's example) does not hold — the code caps at 20
files. -/
theorem eleven_source_files_recorded :
    ¬ ((extractReadmeAndComments elevenCommentedSources).code_comments.length
        ≤ 10) := by
  decide

/-- C5 witness: the bounds hold at a concrete tree containing a readme
and a commented source file. -/
theorem extractor_bounds_witness :
    ({ file := "README.md".data, path := ["bin".data, "README.md".data],
       content := "Hi".data.take 2000 } : ReadmeRecord).content.length ≤ 2000
    ∧ ({ file := "Foo.cs".data, comments := ["hello".data] }
        : CommentRecord).comments.length ≤ 10
    ∧ (extractReadmeAndComments binReadmeFs).code_comments.length ≤ 20 := by
  exact extractor_bounds binReadmeFs
    { file := "README.md".data, path := ["bin".data, "README.md".data],
      content := "Hi".data.take 2000 }
    { file := "Foo.cs".data, comments := ["hello".data] }
    (by decide) (by decide)

/-- An upload whose archive carries a path-escaping entry name. -/
def pathEscapeRequest : UploadRequest :=
  { hasFile := true, filename := "proj.zip".data,
    zipEntries := ["../evil.txt".data], content := [] }

/-- C3 counterexample: uploading a zip with the path-escaping entry
`../evil.txt` does not fail — `upload_project` returns a success response
with a report id (the code defines no IngestError and performs no
path-escape check); extraction sanitizes the name and writes
`evil.txt` inside the job directory. -/
theorem pathEscape_upload_succeeds :
    uploadProject id 5 pathEscapeRequest
      = (UploadResponse.ok "report_5_proj".data,
         [["uploads".data, "report_5_proj".data, "evil.txt".data]]) := by
  decide

/-- C3 (amended): for every zip upload with a file part and a non-empty
filename, extraction writes every archive entry inside the job's working
directory — CPython's extraction drops empty, `.` and `..` path
components of each member name — but the upload succeeds with a report
id instead of failing with a request-level IngestError. -/
theorem zip_extraction_stays_inside_job_dir (secure : PyStr → PyStr)
    (t : Nat) (req : UploadRequest) (entry : PyStr)
    (h1 : req.hasFile = true) (h2 : req.filename ≠ [])
    (h3 : pyEndsWith ".zip".data (pyLower (secure req.filename)) = true)
    (he : entry ∈ req.zipEntries) :
    (uploadProject secure t req).1 = UploadResponse.ok (reportId t req.filename)
    ∧ (["uploads".data, reportId t req.filename] ++ sanitizeComponents entry)
        ∈ (uploadProject secure t req).2
    ∧ (sanitizeComponents entry).all
        (fun comp => comp != "..".data && comp != [] && comp != ".".data)
      = true := by
  have hup : uploadProject secure t req
      = (UploadResponse.ok (reportId t req.filename),
         req.zipEntries.map fun nm =>
           ["uploads".data, reportId t req.filename] ++ sanitizeComponents nm) := by
    simp [uploadProject, h1, h2, h3]
  refine ⟨?_, ?_, ?_⟩
  · rw [hup]
  · rw [hup]
    exact List.mem_map.mpr ⟨entry, he, rfl⟩
  · rw [List.all_eq_true]
    intro comp hcomp
    simp only [sanitizeComponents, List.mem_filter, Bool.and_eq_true,
      bne_iff_ne, ne_eq] at hcomp
    simp only [Bool.and_eq_true, bne_iff_ne, ne_eq]
    exact ⟨⟨hcomp.2.2, hcomp.2.1.1⟩, hcomp.2.1.2⟩

/-- C3 witness: the amended statement at the concrete path-escaping
upload. -/
theorem zip_extraction_stays_inside_job_dir_witness :
    (uploadProject id 5 pathEscapeRequest).1
        = UploadResponse.ok (reportId 5 "proj.zip".data)
    ∧ (["uploads".data, reportId 5 "proj.zip".data]
          ++ sanitizeComponents "../evil.txt".data)
        ∈ (uploadProject id 5 pathEscapeRequest).2
    ∧ (sanitizeComponents "../evil.txt".data).all
        (fun comp => comp != "..".data && comp != [] && comp != ".".data)
      = true := by
  exact zip_extraction_stays_inside_job_dir id 5 pathEscapeRequest
    "../evil.txt".data rfl (by decide) (by decide) (by decide)

/-- Two distinct uploads in the same clock second with the same filename. -/
def uploadSameSecondA : UploadRequest :=
  { hasFile := true, filename := "app.zip".data,
    zipEntries := ["a.cs".data], content := "AAA".data }

/-- A different upload (different archive contents), same second and
filename. -/
def uploadSameSecondB : UploadRequest :=
  { hasFile := true, filename := "app.zip".data,
    zipEntries := ["b.cs".data], content := "BBB".data }

/-- C6: the report id is `report_{int(time.time())}_{filename stem}`, so
two distinct uploads in the same clock second whose filenames share a
stem receive the same id — uniqueness across uploads in one process run
fails (the code's own comment says "Generate unique report ID").  Two
distinct filenames with the same stem collide as well. -/
theorem report_id_collision :
    uploadSameSecondA ≠ uploadSameSecondB
    ∧ (uploadProject id 1700000000 uploadSameSecondA).1
        = UploadResponse.ok "report_1700000000_app".data
    ∧ (uploadProject id 1700000000 uploadSameSecondB).1
        = UploadResponse.ok "report_1700000000_app".data
    ∧ reportId 3 "app.zip".data = reportId 3 "app.sln".data := by
  refine ⟨by decide, by decide, by decide, by decide⟩

/-! ## Lemmas about the comment scanners -/

/-- Once the slash scanner is capturing, a newline-free tail extends the
single pending capture to the end of input. -/
theorem scanSlashCaps_cap (need : Nat) :
    ∀ (t acc : PyStr), (∀ c ∈ t, ¬ c = '\n') →
      scanSlashCaps need t (LineScan.cap acc) = [acc ++ t] := by
  intro t
  induction t with
  | nil => intro acc h; simp [scanSlashCaps]
  | cons c cs ih =>
    intro acc h
    simp only [scanSlashCaps]
    rw [if_neg (h c (List.mem_cons_self c cs))]
    rw [ih (acc ++ [c]) fun d hd => h d (List.mem_cons_of_mem c hd)]
    simp

/-- The block scanner emits nothing on star-free input from an outside
state. -/
theorem scanBlockCaps_out :
    ∀ (l : PyStr), (∀ c ∈ l, ¬ c = '*') → ∀ (b : Bool),
      scanBlockCaps l (BlockScan.out b) = [] := by
  intro l
  induction l with
  | nil => intro _ b; rfl
  | cons c cs ih =>
    intro h b
    have hc : ¬ c = '*' := h c (List.mem_cons_self c cs)
    have htail : ∀ d ∈ cs, ¬ d = '*' := fun d hd => h d (List.mem_cons_of_mem c hd)
    simp only [scanBlockCaps]
    by_cases hs : c = '/'
    · rw [if_pos hs]
      exact ih htail true
    · rw [if_neg hs, if_neg (by simp [hc])]
      exact ih htail false

/-- A list equal to its own whitespace-`dropWhile` starts with a
non-whitespace character. -/
theorem dropWhile_eq_self_head (p : Char → Bool) (x : Char) (xs : PyStr)
    (h : (x :: xs).dropWhile p = x :: xs) : p x = false := by
  by_cases hp : p x = true
  · rw [List.dropWhile_cons_of_pos hp] at h
    have hlen := congrArg List.length h
    have hle : (xs.dropWhile p).length ≤ xs.length :=
      (List.dropWhile_suffix p).sublist.length_le
    simp at hlen
    omega
  · simpa using hp

/-- A string unchanged by `strip()` is unchanged by the leading and the
trailing whitespace removal separately. -/
theorem pyStrip_eq_self_parts (t : PyStr) (h : pyStrip t = t) :
    t.dropWhile isPySpace = t
    ∧ t.reverse.dropWhile isPySpace = t.reverse := by
  have hb : (t.dropWhile isPySpace).reverse.dropWhile isPySpace = t.reverse := by
    have := congrArg List.reverse h
    simpa [pyStrip] using this
  have hlen1 : ((t.dropWhile isPySpace).reverse.dropWhile isPySpace).length
      ≤ (t.dropWhile isPySpace).length := by
    have := (List.dropWhile_suffix (l := (t.dropWhile isPySpace).reverse)
      isPySpace).sublist.length_le
    simpa using this
  have hlen2 : (t.dropWhile isPySpace).length ≤ t.length :=
    (List.dropWhile_suffix isPySpace).sublist.length_le
  have hlen3 : ((t.dropWhile isPySpace).reverse.dropWhile isPySpace).length
      = t.length := by
    rw [hb]
    simp
  have ha : t.dropWhile isPySpace = t :=
    (List.dropWhile_suffix isPySpace).eq_of_length (by omega)
  refine ⟨ha, ?_⟩
  rw [ha] at hb
  exact hb

/-- Prefixing a stripped string with `/ ` leaves it unchanged by
`strip()`. -/
theorem pyStrip_slash_entry (c0 : Char) (rest : PyStr)
    (h : pyStrip (c0 :: rest) = c0 :: rest) :
    pyStrip ('/' :: ' ' :: c0 :: rest) = '/' :: ' ' :: c0 :: rest := by
  rcases pyStrip_eq_self_parts _ h with ⟨_, hb⟩
  rcases hr : (c0 :: rest).reverse with _ | ⟨x, xs⟩
  · have := congrArg List.length hr
    simp at this
  · have hx : isPySpace x = false := by
      apply dropWhile_eq_self_head isPySpace x xs
      rw [← hr]
      exact hb
    unfold pyStrip
    rw [List.dropWhile_cons_of_neg (by decide)]
    have h2 : ('/' :: ' ' :: c0 :: rest).reverse = x :: (xs ++ [' ', '/']) := by
      simp [hr]
    rw [h2, List.dropWhile_cons_of_neg (by simp [hx]), ← h2]
    simp

/-- C9 (amended): a `///` doc-comment line with non-whitespace text is
recorded twice before the per-file cap — but as two different strings:
the `//` pattern also matches the line and captures the text with an
extra leading `/ `, while the `///` pattern captures the exact text, so
the exact doc text itself appears once, not twice. -/
theorem doc_comment_double_recorded (c0 : Char) (rest : PyStr)
    (hstrip : pyStrip (c0 :: rest) = c0 :: rest)
    (hclean : (c0 :: rest).all (fun c => !(c = '/' || c = '*' || c = '\n'))
      = true) :
    extractCommentsFromData ("/// ".data ++ (c0 :: rest))
      = [('/' :: ' ' :: c0 :: rest), (c0 :: rest)]
    ∧ ('/' :: ' ' :: c0 :: rest) ≠ (c0 :: rest)
    ∧ List.count (c0 :: rest)
        (extractCommentsFromData ("/// ".data ++ (c0 :: rest))) = 1 := by
  have hprops : ∀ c ∈ (c0 :: rest), ¬ c = '/' ∧ ¬ c = '*' ∧ ¬ c = '\n' := by
    intro c hc
    have h2 := List.all_eq_true.mp hclean c hc
    have h3 : (¬ c = '/' ∧ ¬ c = '*') ∧ ¬ c = '\n' := by
      simpa [not_or] using h2
    exact ⟨h3.1.1, h3.1.2, h3.2⟩
  have hnl : ∀ c ∈ (c0 :: rest), ¬ c = '\n' := fun c hc => (hprops c hc).2.2
  have hnlr : ∀ c ∈ rest, ¬ c = '\n' :=
    fun c hc => hnl c (List.mem_cons_of_mem _ hc)
  have hstar : ∀ c ∈ ("/// ".data ++ (c0 :: rest)), ¬ c = '*' := by
    intro c hc
    rcases List.mem_append.mp hc with h1 | h1
    · have : c = '/' ∨ c = '/' ∨ c = '/' ∨ c = ' ' := by simpa using h1
      rcases this with rfl | rfl | rfl | rfl <;> decide
    · exact (hprops c h1).2.1
  have hhead : isPySpace c0 = false :=
    dropWhile_eq_self_head _ c0 rest (pyStrip_eq_self_parts _ hstrip).1
  have hline : lineCommentCaps ("/// ".data ++ (c0 :: rest))
      = [('/' :: ' ' :: c0 :: rest)] := by
    show scanSlashCaps 2 (c0 :: rest) (LineScan.cap ['/', ' ']) = _
    rw [scanSlashCaps_cap 2 (c0 :: rest) ['/', ' '] hnl]
    rfl
  have hxml : xmlDocCaps ("/// ".data ++ (c0 :: rest)) = [c0 :: rest] := by
    show scanSlashCaps 3 (c0 :: rest) LineScan.skipWs = _
    simp only [scanSlashCaps]
    rw [if_neg (by simp [hhead]), scanSlashCaps_cap 3 rest [c0] hnlr]
    rfl
  have hblock : blockCommentCaps ("/// ".data ++ (c0 :: rest)) = [] :=
    scanBlockCaps_out _ hstar false
  have hs1 : pyStrip ('/' :: ' ' :: c0 :: rest) = '/' :: ' ' :: c0 :: rest :=
    pyStrip_slash_entry c0 rest hstrip
  have hmain : extractCommentsFromData ("/// ".data ++ (c0 :: rest))
      = [('/' :: ' ' :: c0 :: rest), (c0 :: rest)] := by
    unfold extractCommentsFromData
    rw [hline, hxml, hblock]
    unfold keepStripped
    simp only [List.map_cons, List.map_nil, hs1, hstrip]
    rw [List.filter_cons_of_pos (by simp), List.filter_cons_of_pos (by simp)]
    simp only [List.filter_nil, List.nil_append, List.append_nil]
    exact List.take_of_length_le (by simp)
  have hne : ('/' :: ' ' :: c0 :: rest) ≠ (c0 :: rest) := by
    intro heq
    have := congrArg List.length heq
    simp at this
    omega
  refine ⟨hmain, hne, ?_⟩
  rw [hmain]
  have hbeq1 : (('/' :: ' ' :: c0 :: rest) == (c0 :: rest)) = false :=
    beq_eq_false_iff_ne.mpr hne
  have hbeq2 : ((c0 :: rest) == (c0 :: rest)) = true := beq_iff_eq.mpr rfl
  rw [List.count_cons, List.count_cons, List.count_nil, hbeq1, hbeq2]
  simp

/-- C9 counterexample: for the doc comment `/// Gets the value`, the
exact comment text appears exactly once in the extracted list (the second
pre-cap entry is `/ Gets the value`, with an extra leading slash from the
`//` pattern), so the text is not recorded at least twice. -/
theorem doc_comment_exact_text_once :
    ¬ (2 ≤ List.count ("Gets the value".data)
        (extractCommentsFromData "/// Gets the value".data)) := by
  decide

/-- C9 witness: the amended statement at the concrete doc line
`/// Gets the value`. -/
theorem doc_comment_double_recorded_witness :
    extractCommentsFromData ("/// ".data ++ ('G' :: "ets the value".data))
      = [('/' :: ' ' :: 'G' :: "ets the value".data),
         ('G' :: "ets the value".data)]
    ∧ ('/' :: ' ' :: 'G' :: "ets the value".data)
        ≠ ('G' :: "ets the value".data)
    ∧ List.count ('G' :: "ets the value".data)
        (extractCommentsFromData
          ("/// ".data ++ ('G' :: "ets the value".data))) = 1 := by
  exact doc_comment_double_recorded 'G' "ets the value".data
    (by decide) (by decide)
